import Mathlib

/-!
# HAYA-DISK core subsystem: shallow embedding and verification

This file embeds the concurrency / caching / admission-control / backup
core of the HAYA-DISK file-storage service (Go sources under
`services/cache_service.go`, `services/file_lock_service.go`,
`middleware/rate_limiter.go`, `services/backup_service.go`) as executable
Lean definitions and proves properties of them.

Conventions of the embedding:
* Go `time.Time` values become `Int` instants (an abstract clock);
  `a.After(b)` is `b < a`, `a.Before(b)` is `a < b`; one day is `86400`
  units.
* Go maps become functions into `Option`; a missing key is `none`.
* Go `int64` arithmetic wraps modulo `2 ^ 64`; where the source adds
  `int64`s we wrap explicitly with `wrap64`.
* The opaque `interface{}` payload of a cache entry is modelled by `Nat`.
* Code that runs under a mutex is modelled as an atomic step; the
  interleaving of such steps from concurrent goroutines is modelled
  explicitly where a claim is about a race (the lock registry).
-/

set_option autoImplicit false

namespace HayaDisk

/-! ## Basic helpers -/

/-- Normalise an integer into the `int64` range `[-2^63, 2^63)`,
the way Go `int64` addition wraps. -/
def wrap64 (x : Int) : Int := (x + 2 ^ 63) % 2 ^ 64 - 2 ^ 63

/-- Go's `strings.HasPrefix(s, pre)`: `pre` is a prefix of `s`. -/
def goHasPrefix (s pre : String) : Bool := pre.data.isPrefixOf s.data

/-! ## Directory cache (`services/cache_service.go`)

State of the two package-level maps `fileListCache` and
`folderSizeCache`. The payload (`interface{}` in Go) is modelled by `Nat`;
folder sizes are Go `int64`, modelled by `Int` with explicit wrap-around
where the source performs arithmetic. -/

/-- `CacheEntry` from `cache_service.go`: payload plus absolute expiry. -/
structure CacheEntry where
  data : Nat
  expiresAt : Int
deriving DecidableEq, Repr

/-- The two cache maps guarded by `cacheMutex`. -/
structure CacheState where
  fileListCache : String → Option CacheEntry
  folderSizeCache : String → Option Int

/-- `cacheTTL = 5 * time.Second` (5 abstract time units). -/
def cacheTTL : Int := 5

/-- `GetCachedFileList`: returns the cached payload unless the key is
absent or `time.Now().After(entry.ExpiresAt)` holds (i.e. the entry has
expired, `expiresAt < now`). The state is returned unchanged: the
function only takes the read lock and never mutates the maps. -/
def getCachedFileList (st : CacheState) (now : Int) (key : String) :
    Option Nat × CacheState :=
  match st.fileListCache key with
  | none => (none, st)
  | some entry =>
      if entry.expiresAt < now then (none, st)
      else (some entry.data, st)

/-- `SetCachedFileList`: overwrite the entry for `key` with expiry
`now + cacheTTL`. -/
def setCachedFileList (st : CacheState) (now : Int) (key : String) (data : Nat) :
    CacheState :=
  { st with fileListCache := fun k =>
      if k = key then some { data := data, expiresAt := now + cacheTTL }
      else st.fileListCache k }

/-- `InvalidateUserCache`: delete from both maps every key that starts
with `username` (`strings.HasPrefix(key, username)`). -/
def invalidateUserCache (st : CacheState) (username : String) : CacheState :=
  { fileListCache := fun k =>
      if goHasPrefix k username then none else st.fileListCache k,
    folderSizeCache := fun k =>
      if goHasPrefix k username then none else st.folderSizeCache k }

/-- `GetFolderSize`: plain lookup in `folderSizeCache` (read lock only). -/
def getFolderSize (st : CacheState) (folderPath : String) : Option Int :=
  st.folderSizeCache folderPath

/-- `SetFolderSize`: store `size` for `folderPath`. -/
def setFolderSize (st : CacheState) (folderPath : String) (size : Int) : CacheState :=
  { st with folderSizeCache := fun k =>
      if k = folderPath then some size else st.folderSizeCache k }

/-- `UpdateFolderSize`: `folderSizeCache[folderPath] += sizeDelta`.
A missing Go map key reads as the zero value `0`; the `int64` addition
wraps. -/
def updateFolderSize (st : CacheState) (folderPath : String) (sizeDelta : Int) :
    CacheState :=
  { st with folderSizeCache := fun k =>
      if k = folderPath then
        some (wrap64 ((st.folderSizeCache folderPath).getD 0 + sizeDelta))
      else st.folderSizeCache k }

/-! ## Rate limiter (`middleware/rate_limiter.go`) -/

/-- The `RateLimiter` struct: per-user recorded timestamps, a limit, and
a window length. -/
structure RateLimiter where
  requests : String → List Int
  limit : Nat
  window : Int

/-- `NewRateLimiter(limit, window)`. -/
def newRateLimiter (limit : Nat) (window : Int) : RateLimiter :=
  { requests := fun _ => [], limit := limit, window := window }

/-- `(*RateLimiter).Allow(username)`, with the clock reading `now` passed
explicitly. Filters the user's recorded timestamps down to those with
`req.After(cutoff)` for `cutoff = now - window`; if at least `limit`
remain, denies without touching the map (the filtered list is a local in
the source and is discarded); otherwise stores the filtered list with
`now` appended and admits. -/
def RateLimiter.allow (rl : RateLimiter) (username : String) (now : Int) :
    RateLimiter × Bool :=
  let cutoff := now - rl.window
  let validRequests := (rl.requests username).filter fun req => decide (cutoff < req)
  if validRequests.length ≥ rl.limit then (rl, false)
  else
    ({ rl with requests := fun u =>
        if u = username then validRequests ++ [now] else rl.requests u }, true)

/-- Run a sequence of `Allow` calls for one user at the given clock
readings, collecting the results. -/
def allowTrace (rl : RateLimiter) (username : String) :
    List Int → RateLimiter × List Bool
  | [] => (rl, [])
  | t :: ts =>
      let step := rl.allow username t
      let rest := allowTrace step.1 username ts
      (rest.1, step.2 :: rest.2)

/-! ## Lock registry (`services/file_lock_service.go`)

The registry is the package-level map `userFileLocks` guarded by
`lockMapMutex`. Lock objects (`*sync.RWMutex`) are identified by the
`Nat` at which they were allocated, so "same lock object" is equality of
identifiers; `nextId` is the allocator. `GetUserFileLock` consists of two
atomic phases: a read-locked lookup, and (on a miss) a write-locked
double-check-then-create. Between the two phases another goroutine may
run; the interleaving of the phases of two concurrent calls is modelled
by an explicit schedule. -/

/-- The registry map plus an allocator of fresh lock identities. -/
structure LockRegistry where
  locks : String → Option Nat
  nextId : Nat

/-- The write-locked second phase of `GetUserFileLock`: double-check the
map, and only on a still-missing key allocate and publish a new lock. -/
def getOrCreateLocked (reg : LockRegistry) (u : String) : LockRegistry × Nat :=
  match reg.locks u with
  | some l => (reg, l)
  | none =>
      ({ locks := fun v => if v = u then some reg.nextId else reg.locks v,
         nextId := reg.nextId + 1 }, reg.nextId)

/-- `GetUserFileLock` run without interference (both phases back to
back): read-locked lookup, then on a miss the write-locked
get-or-create. -/
def getUserFileLock (reg : LockRegistry) (u : String) : LockRegistry × Nat :=
  match reg.locks u with
  | some l => (reg, l)
  | none => getOrCreateLocked reg u

/-- Control state of one goroutine executing `GetUserFileLock u`:
before the read-locked lookup, after a missed lookup, or returned with
a lock identity. -/
inductive ThreadState where
  | start
  | needCreate
  | done (lockId : Nat)
deriving DecidableEq, Repr

/-- One atomic phase of `GetUserFileLock u` from a given control state. -/
def threadStep (u : String) (reg : LockRegistry) :
    ThreadState → LockRegistry × ThreadState
  | .start =>
      match reg.locks u with
      | some l => (reg, .done l)
      | none => (reg, .needCreate)
  | .needCreate =>
      let r := getOrCreateLocked reg u
      (r.1, .done r.2)
  | .done l => (reg, .done l)

/-- Two goroutines concurrently calling `GetUserFileLock u` on a shared
registry. -/
structure RaceConfig where
  reg : LockRegistry
  t0 : ThreadState
  t1 : ThreadState

/-- Let thread `false`/`true` perform its next atomic phase. -/
def raceStep (u : String) (c : RaceConfig) (i : Bool) : RaceConfig :=
  if i then
    let r := threadStep u c.reg c.t1
    { c with reg := r.1, t1 := r.2 }
  else
    let r := threadStep u c.reg c.t0
    { c with reg := r.1, t0 := r.2 }

/-- Run a schedule (an arbitrary interleaving of the two threads'
phases). -/
def raceRun (u : String) (c : RaceConfig) : List Bool → RaceConfig
  | [] => c
  | i :: rest => raceRun u (raceStep u c i) rest

/-- Invariant tying finished threads to the registry: a thread that has
returned lock identity `l` returned the lock currently published for
`u`. -/
def raceInv (u : String) (c : RaceConfig) : Prop :=
  (∀ l, c.t0 = .done l → c.reg.locks u = some l)
  ∧ (∀ l, c.t1 = .done l → c.reg.locks u = some l)

/-! ## Backup scheduler (`services/backup_service.go`) -/

/-- `config.BackupSettings` (`config/backup settings` source file). -/
structure BackupSettings where
  enabled : Bool
  backupDir : String
  scheduleHour : Nat
  scheduleMinute : Nat
  retentionDays : Int
  backupDatabase : Bool
  backupStorage : Bool
  compressBackup : Bool

/-- One line of `backup_log.txt` as written by `logBackup`:
timestamp, status, path, duration, size. -/
structure BackupLogLine where
  time : Int
  statusSuccess : Bool
  path : String
  duration : Int
  size : Int
deriving DecidableEq, Repr

/-- `BackupResult` from `backup_service.go` (`FilesCount` is never set on
the paths modelled here and is omitted). -/
structure BackupResult where
  success : Bool
  backupPath : String
  startTime : Int
  endTime : Int
  totalSize : Int
deriving DecidableEq, Repr

/-- `logBackup`: append exactly one line — status `SUCCESS` or `FAILED` —
recording timestamp, status, path, duration, and size. -/
def logBackup (result : BackupResult) (log : List BackupLogLine) :
    List BackupLogLine :=
  log ++ [{ time := result.startTime,
            statusSuccess := result.success,
            path := result.backupPath,
            duration := result.endTime - result.startTime,
            size := result.totalSize }]

/-- `RunBackup`, abstracting the archive-creation step
(`createCompressedBackup` / `createDirectoryBackup`) as an input
`createResult : Except String String` (error message, or produced path),
with the two clock readings and the size reported by `os.Stat` passed in.
On a creation error the function stores the error into the result and
returns it at once — before reaching the `logBackup` call; only on
success does it fall through to `logBackup`. -/
def runBackup (startTime endTime : Int) (createResult : Except String String)
    (statSize : Int) (log : List BackupLogLine) :
    BackupResult × List BackupLogLine :=
  match createResult with
  | .error _ =>
      ({ success := false, backupPath := "", startTime := startTime,
         endTime := endTime, totalSize := 0 }, log)
  | .ok path =>
      let result : BackupResult :=
        { success := true, backupPath := path, startTime := startTime,
          endTime := endTime, totalSize := statSize }
      (result, logBackup result log)

/-- One entry of the backup destination directory as seen by
`os.ReadDir`: name, directory flag, and modification time. -/
structure DirEntry where
  name : String
  isDir : Bool
  modTime : Int
deriving DecidableEq, Repr

/-- One day of the abstract clock (`AddDate(0, 0, -retentionDays)`
subtracts whole days). -/
def dayLength : Int := 86400

/-- `CleanOldBackups`: a non-positive retention disables pruning; else
every entry whose name starts with `backup_` and whose modification time
is strictly before `now - retentionDays` days is removed (file or
directory alike) and everything else is kept. -/
def cleanOldBackups (retentionDays : Int) (now : Int) (entries : List DirEntry) :
    List DirEntry :=
  if retentionDays ≤ 0 then entries
  else
    entries.filter fun e =>
      !(goHasPrefix e.name "backup_" && decide (e.modTime < now - retentionDays * dayLength))

/-- Lifecycle state of the `BackupScheduler`: the `isRunning` flag and
whether `stopChan` has been closed. `Start` never recreates the channel
(only `InitBackupService` allocates one), so closing it is
irrevocable for a given scheduler value. -/
structure SchedState where
  isRunning : Bool
  stopClosed : Bool
deriving DecidableEq, Repr

/-- `Start`: a no-op when already running; otherwise set `isRunning`.
The stop channel is left untouched. -/
def schedStart (s : SchedState) : SchedState :=
  if s.isRunning then s else { s with isRunning := true }

/-- `Stop`: a no-op when not running; otherwise clear `isRunning` and
close `stopChan`. (Closing an already-closed channel panics in Go; the
model keeps the channel closed, which is what any continuation of the
process observes.) -/
def schedStop (s : SchedState) : SchedState :=
  if s.isRunning then { isRunning := false, stopClosed := true } else s

/-- The `Start` / `Stop` calls the surrounding code may issue. -/
inductive SchedOp where
  | start
  | stop
deriving DecidableEq, Repr

def applySchedOp (s : SchedState) : SchedOp → SchedState
  | .start => schedStart s
  | .stop => schedStop s

def applySchedOps (s : SchedState) (ops : List SchedOp) : SchedState :=
  ops.foldl applySchedOp s

/-- The scheduler loop `run`, counting scheduled backups fired: each
iteration selects between the stop channel (closed ⇒ return at once,
before the timer case can fire a backup) and the timer (fire one backup,
loop). `fuel` bounds the number of iterations observed. -/
def runLoopFires (stopClosed : Bool) : Nat → Nat
  | 0 => 0
  | n + 1 => if stopClosed then 0 else 1 + runLoopFires stopClosed n

end HayaDisk

namespace HayaDisk

/-! ## Helper lemmas -/

theorem wrap64_add_left (a b : Int) : wrap64 (wrap64 a + b) = wrap64 (a + b) := by
  unfold wrap64
  omega

theorem wrap64_eq_of_mem_range (x : Int) (h1 : -(2 ^ 63) ≤ x) (h2 : x < 2 ^ 63) :
    wrap64 x = x := by
  unfold wrap64
  omega

theorem goHasPrefix_trans {a b c : String}
    (h1 : goHasPrefix b a = true) (h2 : goHasPrefix c b = true) :
    goHasPrefix c a = true := by
  unfold goHasPrefix at *
  rw [List.isPrefixOf_iff_prefix] at *
  exact h1.trans h2

theorem threadStep_entry_stable (u : String) (reg : LockRegistry) (t : ThreadState)
    (l : Nat) (h : reg.locks u = some l) :
    (threadStep u reg t).1.locks u = some l := by
  cases t with
  | start => simp [threadStep, h]
  | needCreate => simp [threadStep, getOrCreateLocked, h]
  | done l' => simpa [threadStep] using h

theorem raceStep_entry_stable (u : String) (c : RaceConfig) (i : Bool)
    (l : Nat) (h : c.reg.locks u = some l) :
    (raceStep u c i).reg.locks u = some l := by
  cases i <;> simpa [raceStep] using threadStep_entry_stable u c.reg _ l h

theorem threadStep_done (u : String) (reg : LockRegistry) (t : ThreadState)
    (hdone : ∀ l', t = .done l' → reg.locks u = some l') (l : Nat)
    (h : (threadStep u reg t).2 = .done l) :
    (threadStep u reg t).1.locks u = some l := by
  cases t with
  | start =>
    cases hreg : reg.locks u with
    | none =>
      exfalso
      simp [threadStep, hreg] at h
    | some l0 =>
      simp only [threadStep, hreg] at h ⊢
      injection h with h'
      subst h'
      rfl
  | needCreate =>
    cases hreg : reg.locks u with
    | none =>
      simp only [threadStep, getOrCreateLocked, hreg] at h ⊢
      injection h with h'
      subst h'
      simp
    | some l0 =>
      simp only [threadStep, getOrCreateLocked, hreg] at h ⊢
      injection h with h'
      subst h'
      rfl
  | done l0 =>
    simp only [threadStep] at h ⊢
    injection h with h'
    subst h'
    exact hdone l0 rfl

theorem raceStep_inv (u : String) (c : RaceConfig) (i : Bool)
    (h : raceInv u c) : raceInv u (raceStep u c i) := by
  obtain ⟨h0, h1⟩ := h
  cases i
  · have hstep : raceStep u c false =
        { c with reg := (threadStep u c.reg c.t0).1,
                 t0 := (threadStep u c.reg c.t0).2 } := rfl
    rw [hstep]
    exact ⟨fun l hl => threadStep_done u c.reg c.t0 h0 l hl,
           fun l hl => threadStep_entry_stable u c.reg c.t0 l (h1 l hl)⟩
  · have hstep : raceStep u c true =
        { c with reg := (threadStep u c.reg c.t1).1,
                 t1 := (threadStep u c.reg c.t1).2 } := rfl
    rw [hstep]
    exact ⟨fun l hl => threadStep_entry_stable u c.reg c.t1 l (h0 l hl),
           fun l hl => threadStep_done u c.reg c.t1 h1 l hl⟩

theorem raceRun_inv (u : String) (sched : List Bool) (c : RaceConfig)
    (h : raceInv u c) : raceInv u (raceRun u c sched) := by
  induction sched generalizing c with
  | nil => exact h
  | cons i rest ih => exact ih _ (raceStep_inv u c i h)

theorem raceRun_stable (u : String) (sched : List Bool) (c : RaceConfig)
    (l : Nat) (h : c.reg.locks u = some l) :
    (raceRun u c sched).reg.locks u = some l := by
  induction sched generalizing c with
  | nil => exact h
  | cons i rest ih => exact ih _ (raceStep_entry_stable u c i l h)

end HayaDisk

namespace HayaDisk

/-! ## Claims about the directory cache (C4, C5, C6, C8) -/

/-- C4 (claim as stated is refuted at the expiry boundary): with an entry
whose expiry is exactly `10`, a read at `now = 10` still returns the
payload, although `now` is not strictly before the expiry. The claim
"get returns found only if the current time is strictly before the
entry's expiry" is therefore false on the code. -/
theorem getCachedFileList_boundary_counterexample :
    (getCachedFileList
        { fileListCache := fun k => if k = "alice/docs" then some ⟨42, 10⟩ else none,
          folderSizeCache := fun _ => none }
        10 "alice/docs").1 = some 42
    ∧ ¬ ((10 : Int) < 10) := by
  constructor
  · rfl
  · decide

/-- C4 (amended): `getCachedFileList` returns `(payload, found)` iff an
entry exists for the key and `now` is at or before (not strictly after)
its expiry; in every other case it reports not-found, treating an expired
entry exactly like an absent one, and it never modifies the cache
state. -/
theorem getCachedFileList_spec (st : CacheState) (now : Int) (key : String) :
    (∀ d : Nat, (getCachedFileList st now key).1 = some d ↔
      ∃ entry, st.fileListCache key = some entry ∧ now ≤ entry.expiresAt ∧
        entry.data = d)
    ∧ (getCachedFileList st now key).2 = st := by
  cases h : st.fileListCache key with
  | none =>
    constructor
    · intro d
      constructor
      · intro hd
        exfalso
        simp [getCachedFileList, h] at hd
      · rintro ⟨e, he, -, -⟩
        exact absurd he (by simp)
    · simp [getCachedFileList, h]
  | some entry =>
    constructor
    · intro d
      constructor
      · intro hd
        by_cases hexp : entry.expiresAt < now
        · exfalso
          simp [getCachedFileList, h, hexp] at hd
        · refine ⟨entry, rfl, by omega, ?_⟩
          simpa [getCachedFileList, h, hexp] using hd
      · rintro ⟨e, he, hle, hd⟩
        injection he with he'
        subst he'
        have hexp : ¬ entry.expiresAt < now := by omega
        simp [getCachedFileList, h, hexp, hd]
    · by_cases hexp : entry.expiresAt < now <;>
        simp [getCachedFileList, h, hexp]

/-- C5: a get issued after a put for the same key, with no intervening
operation, before the 5-unit TTL has elapsed, returns the stored payload;
and a get issued after invalidating the key's owner (the key is scoped to
the owner, i.e. the owner's username is a prefix of the key) returns
not-found regardless of how much TTL remains. -/
theorem cache_put_get_invalidate (st : CacheState) (now t : Int)
    (key owner : String) (data : Nat)
    (hTTL : t < now + cacheTTL)
    (hOwner : goHasPrefix key owner = true) :
    (getCachedFileList (setCachedFileList st now key data) t key).1 = some data
    ∧ (getCachedFileList (invalidateUserCache st owner) t key).1 = none := by
  constructor
  · have hnotlt : ¬ (now + cacheTTL < t) := by omega
    simp [getCachedFileList, setCachedFileList, hnotlt]
  · simp [getCachedFileList, invalidateUserCache, hOwner]

/-- C5 witness: at concrete inputs, a put of `7` at time `0` is read back
at time `4`, and after invalidating owner `"bob"` the key `"bob/photos"`
reads not-found. -/
theorem cache_put_get_invalidate_witness :
    (getCachedFileList
        (setCachedFileList
          { fileListCache := fun _ => none, folderSizeCache := fun _ => none }
          0 "bob/photos" 7)
        4 "bob/photos").1 = some 7
    ∧ (getCachedFileList
        (invalidateUserCache
          { fileListCache := fun k => if k = "bob/photos" then some ⟨7, 5⟩ else none,
            folderSizeCache := fun _ => none }
          "bob")
        4 "bob/photos").1 = none :=
  ⟨(cache_put_get_invalidate
      { fileListCache := fun _ => none, folderSizeCache := fun _ => none }
      0 4 "bob/photos" "bob" 7 (by decide) (by decide)).1,
   (cache_put_get_invalidate
      { fileListCache := fun k => if k = "bob/photos" then some ⟨7, 5⟩ else none,
        folderSizeCache := fun _ => none }
      0 4 "bob/photos" "bob" 7 (by decide) (by decide)).2⟩

/-- C6: folder-size updates are additive on every state — two successive
deltas on the same path leave the same stored total as the single
combined delta, whether or not an aggregate already exists for the path
(a whole-map equality, so unrelated paths are untouched as well); and on
a path with no entry yet, the first update stores the delta itself (for
any delta in `int64` range) instead of failing. -/
theorem updateFolderSize_additive (st : CacheState) (path : String) (d1 d2 : Int)
    (hlo : -(2 ^ 63) ≤ d1) (hhi : d1 < 2 ^ 63) :
    (updateFolderSize (updateFolderSize st path d1) path d2).folderSizeCache
      = (updateFolderSize st path (d1 + d2)).folderSizeCache
    ∧ (st.folderSizeCache path = none →
        (updateFolderSize st path d1).folderSizeCache path = some d1) := by
  constructor
  · funext k
    by_cases hk : k = path
    · subst hk
      simp [updateFolderSize, wrap64_add_left, add_assoc]
    · simp [updateFolderSize, hk]
  · intro hfresh
    simp [updateFolderSize, hfresh, wrap64_eq_of_mem_range d1 hlo hhi]

/-- C6 witness: on a cache already holding `500` for `"storage/a"`,
updating by `100` then `-30` leaves the same map as the single update by
`70`; and on the path `"storage/b"` with no entry, the first update
stores the delta. -/
theorem updateFolderSize_additive_witness :
    ((updateFolderSize (updateFolderSize
        { fileListCache := fun _ => none,
          folderSizeCache := fun k => if k = "storage/a" then some 500 else none }
        "storage/a" 100) "storage/a" (-30)).folderSizeCache
      = (updateFolderSize
        { fileListCache := fun _ => none,
          folderSizeCache := fun k => if k = "storage/a" then some 500 else none }
        "storage/a" (100 + -30)).folderSizeCache)
    ∧ ({ fileListCache := fun _ => none,
         folderSizeCache := fun k =>
           if k = "storage/a" then some 500 else none : CacheState
       }.folderSizeCache "storage/b" = none →
        (updateFolderSize
          { fileListCache := fun _ => none,
            folderSizeCache := fun k => if k = "storage/a" then some 500 else none }
          "storage/b" 100).folderSizeCache "storage/b" = some 100) :=
  ⟨(updateFolderSize_additive
      { fileListCache := fun _ => none,
        folderSizeCache := fun k => if k = "storage/a" then some 500 else none }
      "storage/a" 100 (-30) (by decide) (by decide)).1,
   (updateFolderSize_additive
      { fileListCache := fun _ => none,
        folderSizeCache := fun k => if k = "storage/a" then some 500 else none }
      "storage/b" 100 (-30) (by decide) (by decide)).2⟩

/-- C8: `invalidateUserCache u` removes exactly the entries (in both the
file-listing map and the folder-size map) whose key starts with `u` and
leaves every other entry unchanged; consequently, when `u1` is a string
prefix of a distinct user `u2`, invalidating `u1` also wipes every key
scoped to `u2`. -/
theorem invalidateUserCache_exact (st : CacheState) (u : String) :
    (∀ key, (invalidateUserCache st u).fileListCache key
        = if goHasPrefix key u then none else st.fileListCache key)
    ∧ (∀ key, (invalidateUserCache st u).folderSizeCache key
        = if goHasPrefix key u then none else st.folderSizeCache key)
    ∧ (∀ u2 key, goHasPrefix u2 u = true → goHasPrefix key u2 = true →
        (invalidateUserCache st u).fileListCache key = none
        ∧ (invalidateUserCache st u).folderSizeCache key = none) := by
  refine ⟨fun key => rfl, fun key => rfl, fun u2 key h12 h2k => ?_⟩
  have htrans : goHasPrefix key u = true := goHasPrefix_trans h12 h2k
  constructor <;> simp [invalidateUserCache, htrans]

/-! ## Claim about the rate limiter (C2) -/

/-- C2: provided every timestamp recorded for the user is no later than
the current clock reading (the clock is monotone), `Allow` admits iff the
number of previously recorded timestamps lying strictly within the
trailing window `(now - window, now]` is below the limit; a denial leaves
the limiter state completely unchanged (no timestamp is consumed), an
admission stores the pruned list with `now` appended; and in the concrete
scenario with limit 10 and window 60, ten calls at time 0 are all
admitted, an eleventh at time 59 (inside the same window) is denied, and
a call at time 61 (window elapsed) is admitted again. -/
theorem rateLimiter_allow_spec (rl : RateLimiter) (u : String) (now : Int)
    (h : ∀ t ∈ rl.requests u, t ≤ now) :
    ((rl.allow u now).2 = true ↔
        ((rl.requests u).filter fun t =>
          decide (now - rl.window < t ∧ t ≤ now)).length < rl.limit)
    ∧ ((rl.allow u now).2 = false → (rl.allow u now).1 = rl)
    ∧ ((rl.allow u now).2 = true →
        (rl.allow u now).1.requests u =
          ((rl.requests u).filter fun t => decide (now - rl.window < t)) ++ [now])
    ∧ (allowTrace (newRateLimiter 10 60) "U"
        [0, 0, 0, 0, 0, 0, 0, 0, 0, 0, 59, 61]).2
      = [true, true, true, true, true, true, true, true, true, true,
         false, true] := by
  have hfilter : ((rl.requests u).filter fun t =>
        decide (now - rl.window < t ∧ t ≤ now))
      = (rl.requests u).filter fun t => decide (now - rl.window < t) := by
    apply List.filter_congr
    intro t ht
    have hle := h t ht
    simp only [decide_eq_decide]
    omega
  by_cases hlen :
      ((rl.requests u).filter fun t => decide (now - rl.window < t)).length
        ≥ rl.limit
  · refine ⟨?_, ?_, ?_, by decide⟩
    · rw [hfilter]
      simp [RateLimiter.allow, hlen]
    · intro _
      simp [RateLimiter.allow, hlen]
    · intro htrue
      exfalso
      simp [RateLimiter.allow, hlen] at htrue
  · refine ⟨?_, ?_, ?_, by decide⟩
    · rw [hfilter]
      simp [RateLimiter.allow, hlen]
      omega
    · intro hfalse
      exfalso
      simp [RateLimiter.allow, hlen] at hfalse
    · intro _
      simp [RateLimiter.allow, hlen]

/-- C2 witness: on a fresh limiter with limit 2 and window 60, a call for
`"carol"` at time 5 is admitted (no recorded timestamps), recording `5`. -/
theorem rateLimiter_allow_spec_witness :
    ((newRateLimiter 2 60).allow "carol" 5).2 = true
    ∧ ((newRateLimiter 2 60).allow "carol" 5).1.requests "carol" = [5] := by
  have spec := rateLimiter_allow_spec (newRateLimiter 2 60) "carol" 5
    (by intro t ht; simp [newRateLimiter] at ht)
  have htrue : ((newRateLimiter 2 60).allow "carol" 5).2 = true := by
    rw [spec.1]
    decide
  exact ⟨htrue, by simpa using spec.2.2.1 htrue⟩

/-! ## Claim about the lock registry (C1) -/

/-- C1: for any interleaving of the atomic phases of two concurrent
`GetUserFileLock` calls for the same username — including a brand-new
username — the two callers that have returned hold the same lock
identity, that identity is exactly the one the registry publishes for the
username afterwards, and a lock already published for the username before
the race is never replaced. -/
theorem getUserFileLock_single_instance (u : String) (reg : LockRegistry)
    (sched : List Bool) (a b l : Nat)
    (h0 : (raceRun u ⟨reg, .start, .start⟩ sched).t0 = .done a)
    (h1 : (raceRun u ⟨reg, .start, .start⟩ sched).t1 = .done b) :
    a = b
    ∧ (raceRun u ⟨reg, .start, .start⟩ sched).reg.locks u = some a
    ∧ (reg.locks u = some l →
        (raceRun u ⟨reg, .start, .start⟩ sched).reg.locks u = some l) := by
  have hinv : raceInv u (raceRun u ⟨reg, .start, .start⟩ sched) :=
    raceRun_inv u sched ⟨reg, .start, .start⟩
      ⟨fun l' hl' => by exact absurd hl' (by simp),
       fun l' hl' => by exact absurd hl' (by simp)⟩
  have ha := hinv.1 a h0
  have hb := hinv.2 b h1
  refine ⟨?_, ha, fun hl => raceRun_stable u sched ⟨reg, .start, .start⟩ l hl⟩
  rw [ha] at hb
  injection hb

/-- C1 witness: on an empty registry, the worst-case interleaving (both
threads miss the read-locked lookup, then both run the write-locked
phase) still yields the same lock identity `0` for both threads, which
is the identity the registry then maps `"dave"` to. -/
theorem getUserFileLock_single_instance_witness :
    (0 : Nat) = 0
    ∧ (raceRun "dave" ⟨⟨fun _ => none, 0⟩, .start, .start⟩
        [false, true, false, true]).reg.locks "dave" = some 0
    ∧ ((fun _ => (none : Option Nat)) "dave" = some 0 →
        (raceRun "dave" ⟨⟨fun _ => none, 0⟩, .start, .start⟩
          [false, true, false, true]).reg.locks "dave" = some 0) :=
  getUserFileLock_single_instance "dave" ⟨fun _ => none, 0⟩
    [false, true, false, true] 0 0 0 rfl rfl

/-! ## Claims about the backup scheduler (C3, C7, C9, C10) -/

/-- C3 (the claim is the code's own intent — `logBackup` has a `FAILED`
status branch — but `RunBackup` returns early on a creation error before
reaching the `logBackup` call): at a failing input the backup log gains
no line at all, while a successful attempt appends exactly one. -/
theorem runBackup_failure_appends_no_log_line :
    (runBackup 0 30 (.error "failed to create zip file") 0 []).2 = []
    ∧ (runBackup 0 30 (.error "failed to create zip file") 0 []).1.success = false
    ∧ ((runBackup 0 30 (.ok "backups/backup_2026.zip") 2048 []).2).length = 1 := by
  refine ⟨rfl, rfl, rfl⟩

/-- C7: with positive retention, `CleanOldBackups` removes exactly the
directory entries whose name starts with `backup_` and whose modification
time is strictly older than `now` minus `retentionDays` days, keeping
every other entry (equivalently, the surviving list is the filter of the
original by that predicate, so both membership directions hold); and with
a 7-day retention, an archive exactly 8 days old is deleted while one
exactly 6 days old is retained. -/
theorem cleanOldBackups_spec (rd now : Int) (entries : List DirEntry)
    (h : 0 < rd) :
    (cleanOldBackups rd now entries
      = entries.filter fun e =>
          !(goHasPrefix e.name "backup_"
            && decide (e.modTime < now - rd * dayLength)))
    ∧ (∀ e, e ∈ cleanOldBackups rd now entries ↔
        e ∈ entries ∧ ¬ (goHasPrefix e.name "backup_" = true
          ∧ e.modTime < now - rd * dayLength))
    ∧ cleanOldBackups 7 now
        [⟨"backup_old.zip", false, now - 8 * dayLength⟩,
         ⟨"backup_new.zip", false, now - 6 * dayLength⟩]
      = [⟨"backup_new.zip", false, now - 6 * dayLength⟩] := by
  have hne : ¬ rd ≤ 0 := by omega
  refine ⟨by simp [cleanOldBackups, hne], fun e => ?_, ?_⟩
  · simp only [cleanOldBackups, hne, if_false, List.mem_filter]
    constructor
    · rintro ⟨he, hp⟩
      refine ⟨he, fun hc => ?_⟩
      rw [hc.1] at hp
      simp [hc.2] at hp
    · rintro ⟨he, hnc⟩
      refine ⟨he, ?_⟩
      by_cases hpre : goHasPrefix e.name "backup_" = true
      · have hnold : ¬ e.modTime < now - rd * dayLength :=
          fun hold => hnc ⟨hpre, hold⟩
        simp [hpre, hnold]
      · simp [Bool.eq_false_iff.2 hpre]
  · have hne7 : ¬ ((7 : Int) ≤ 0) := by norm_num
    have h8 : decide (now - 8 * dayLength < now - 7 * dayLength) = true := by
      unfold dayLength
      exact decide_eq_true (by omega)
    have h6 : decide (now - 6 * dayLength < now - 7 * dayLength) = false := by
      unfold dayLength
      exact decide_eq_false (by omega)
    have hp1 : goHasPrefix "backup_old.zip" "backup_" = true := by decide
    have hp2 : goHasPrefix "backup_new.zip" "backup_" = true := by decide
    simp [cleanOldBackups, hne7, List.filter_cons, List.filter_nil, hp1, hp2,
      h8, h6]
    norm_num [dayLength]

/-- C7 witness: with retention 3 days and `now = 10 * dayLength`, an
archive 4 days old is pruned, one 2 days old and an unrelated file
survive. -/
theorem cleanOldBackups_spec_witness :
    cleanOldBackups 3 (10 * dayLength)
        [⟨"backup_a.zip", false, 6 * dayLength⟩,
         ⟨"backup_b.zip", false, 8 * dayLength⟩,
         ⟨"notes.txt", false, 0⟩]
      = [⟨"backup_b.zip", false, 8 * dayLength⟩, ⟨"notes.txt", false, 0⟩] := by
  have spec := cleanOldBackups_spec 3 (10 * dayLength)
      [⟨"backup_a.zip", false, 6 * dayLength⟩,
       ⟨"backup_b.zip", false, 8 * dayLength⟩,
       ⟨"notes.txt", false, 0⟩] (by decide)
  rw [spec.1]
  decide

/-- C10: a zero or negative `RetentionDays` disables pruning entirely —
`CleanOldBackups` deletes nothing, whatever the entries' ages. -/
theorem cleanOldBackups_nonpositive_retention (rd now : Int)
    (entries : List DirEntry) (h : rd ≤ 0) :
    cleanOldBackups rd now entries = entries := by
  simp [cleanOldBackups, h]

/-- C10 witness: with retention 0, even an archive a thousand days old
is kept. -/
theorem cleanOldBackups_nonpositive_retention_witness :
    cleanOldBackups 0 (2000 * dayLength)
        [⟨"backup_ancient.zip", false, 0⟩]
      = [⟨"backup_ancient.zip", false, 0⟩] :=
  cleanOldBackups_nonpositive_retention 0 (2000 * dayLength)
    [⟨"backup_ancient.zip", false, 0⟩] (by decide)

/-- C9: once `Stop` has completed on a running scheduler, the stop
channel is closed; no later sequence of `Start` / `Stop` calls ever
reopens or recreates it, and a scheduler loop launched against the
closed channel observes it in its first `select` and exits before any
scheduled backup fires — zero scheduled backups run after the first
`Stop`, however much fuel the loop is given. -/
theorem scheduler_never_restarts (s : SchedState) (ops : List SchedOp)
    (fuel : Nat) (h : s.isRunning = true) :
    (applySchedOps (schedStop s) ops).stopClosed = true
    ∧ runLoopFires (applySchedOps (schedStop s) ops).stopClosed fuel = 0 := by
  have hclosed : ∀ (t : SchedState) (l : List SchedOp), t.stopClosed = true →
      (applySchedOps t l).stopClosed = true := by
    intro t l
    induction l generalizing t with
    | nil => exact fun ht => ht
    | cons op rest ih =>
      intro ht
      apply ih
      cases op with
      | start =>
        simp only [applySchedOps, applySchedOp, schedStart]
        by_cases hr : t.isRunning <;> simp [hr, ht]
      | stop =>
        simp only [applySchedOps, applySchedOp, schedStop]
        by_cases hr : t.isRunning <;> simp [hr, ht]
  have hstop : (schedStop s).stopClosed = true := by
    simp [schedStop, h]
  have hall := hclosed (schedStop s) ops hstop
  refine ⟨hall, ?_⟩
  rw [hall]
  cases fuel <;> simp [runLoopFires]

/-- C9 witness: a running scheduler is stopped, then started again; the
restarted loop fires no scheduled backup in five iterations. -/
theorem scheduler_never_restarts_witness :
    (applySchedOps (schedStop ⟨true, false⟩) [.start]).stopClosed = true
    ∧ runLoopFires (applySchedOps (schedStop ⟨true, false⟩) [.start]).stopClosed 5 = 0 :=
  scheduler_never_restarts ⟨true, false⟩ [.start] 5 rfl

end HayaDisk
